import Mathlib

/-!
Shallow embedding of the core game logic of `src/main.rs` (a Bevy Tetris
clone).  The embedding models the per-tick system `move_current_tetromino`
together with its helpers `check_tetromino_positions`,
`rotate_tetromino_block` and `spawn_current_tetromino`, over explicit state:
the active piece is the list of blocks returned by the `CurrentTetromino`
query (in query order) and the heap is the list of `MatrixPosition`s of the
blocks tagged `Heap`.  Machine integers (`i32`) are modelled as `Int`; the
game never approaches the `i32` range so no wrap-around is modelled.
Keyboard edges and the soft-drop timer pulse are inputs to the tick;
the random piece kind chosen on a spawn is likewise an input.
Bevy's deferred `Commands` are modelled by the fact that, inside one run of
the system, entities that are handed to `commands` keep participating in the
current queries, and the spawned blocks only exist from the next tick on.
-/

namespace BevyTetris

/-- The seven piece kinds, with the same discriminants as the Rust enum
(`I = 0, O = 1, T = 2, S = 3, Z = 4, L = 5, J = 6`). -/
inductive TetrominoType where
  | I | O | T | S | Z | L | J
deriving DecidableEq, Repr

/-- `Tetromino::SIZES`, indexed by the enum discriminant. -/
def SIZES : TetrominoType → Int
  | .I => 4
  | .O => 4
  | .T => 3
  | .S => 3
  | .Z => 3
  | .L => 3
  | .J => 3

/-- `Tetromino::BLOCK_INDICES`, indexed by the enum discriminant (entry 3 is
the table row commented "Z, red" in the source, entry 4 the row commented
"S, green": the table is read by discriminant, not by comment). -/
def BLOCK_INDICES : TetrominoType → List (Int × Int)
  | .I => [(1, 3), (1, 2), (1, 1), (1, 0)]
  | .O => [(1, 1), (1, 2), (2, 1), (2, 2)]
  | .T => [(0, 1), (1, 1), (2, 1), (1, 2)]
  | .S => [(0, 2), (1, 2), (1, 1), (2, 1)]
  | .Z => [(2, 2), (1, 2), (1, 1), (0, 1)]
  | .L => [(0, 2), (0, 1), (1, 1), (2, 1)]
  | .J => [(0, 1), (1, 1), (2, 1), (2, 2)]

/-- The `MatrixPosition` component: a grid coordinate, origin bottom-left. -/
structure MatrixPosition where
  x : Int
  y : Int
deriving DecidableEq, Repr

/-- One block of the currently controlled tetromino: its `MatrixPosition`
component `pos`, and its `Tetromino` component (local `index` inside the
bounding square plus the piece kind `ty`). -/
structure Cell where
  pos : MatrixPosition
  index : MatrixPosition
  ty : TetrominoType
deriving DecidableEq, Repr

/-- The `Matrix` resource: grid dimensions (10 × 22 in `setup`). -/
structure Matrix where
  width : Int
  height : Int
deriving DecidableEq, Repr

/-- The matrix spawned by `setup`. -/
def m10 : Matrix := { width := 10, height := 22 }

/-- The per-tick inputs of `move_current_tetromino`: one-shot key edges
(`just_pressed`) and whether the soft-drop timer finished this tick.
`hard` stands for `I`/`Up`, `left` for `J`/`Left`, `right` for `L`/`Right`,
`down` for `K`/`Down`, `keyX` for `X` (clockwise), `keyZ` for `Z`
(counter-clockwise). -/
structure Input where
  hard : Bool
  left : Bool
  right : Bool
  down : Bool
  timer : Bool
  keyX : Bool
  keyZ : Bool
deriving DecidableEq, Repr

/-- Game state between ticks: the current tetromino's blocks (query order)
and the heap blocks' positions. -/
structure GState where
  piece : List Cell
  heap : List MatrixPosition
deriving DecidableEq, Repr

/-- `move_x` as accumulated from the key edges (lines 158-166). -/
def moveXOf (inp : Input) : Int :=
  (if inp.left then -1 else 0) + (if inp.right then 1 else 0)

/-- `move_y` as accumulated from the key edges and the timer (lines 168-171). -/
def moveYOf (inp : Input) : Int :=
  if inp.down || inp.timer then -1 else 0

/-- `should_rotate` (lines 177-184): `X` assigns `Some(true)`, then `Z`
assigns `Some(false)`, so `Z` wins when both are pressed. -/
def shouldRotateOf (inp : Input) : Option Bool :=
  if inp.keyZ then some false else if inp.keyX then some true else none

/-- `rotate_tetromino_block`: rotate a local index inside the
`matrix_size × matrix_size` bounding square (lines 291-304). -/
def rotate_tetromino_block (index : MatrixPosition) (matrix_size : Int)
    (clockwise : Bool) : MatrixPosition :=
  let s := matrix_size - 1
  if clockwise then
    { x := index.y, y := s - index.x }
  else
    { x := s - index.y, y := index.x }

/-- One iteration of the movement loop (lines 189-217) for a single block:
optionally rotate the local index, and move the grid position by the base
move plus this block's own local-index delta.  The horizontal clamp is
applied afterwards by `clampedCandidate`. -/
def targetCell (sr : Option Bool) (mx my : Int) (c : Cell) : Cell :=
  match sr with
  | none => { c with pos := { x := c.pos.x + mx, y := c.pos.y + my } }
  | some cw =>
    let i2 := rotate_tetromino_block c.index (SIZES c.ty) cw
    { c with
      index := i2
      pos := { x := c.pos.x + mx + (i2.x - c.index.x)
               y := c.pos.y + my + (i2.y - c.index.y) } }

/-- One step of the `x_over` accumulation (lines 206-213): `t` is the
block's target x (`position.x + move_x`). -/
def xOverStep (w : Int) (acc t : Int) : Int :=
  if t < 0 then min t acc
  else if w ≤ t then max (t - w + 1) acc
  else acc

/-- The final `x_over` after scanning all blocks in query order. -/
def computeXOver (w : Int) (ts : List Int) : Int :=
  ts.foldl (xOverStep w) 0

/-- The candidate piece produced by the movement loop plus the clamp loop
(lines 186-222): every block is moved to its target and then the shared
`x_over` is subtracted from every x (`y_over` is declared but never
assigned in the source, so `0` is subtracted from y). -/
def clampedCandidate (m : Matrix) (sr : Option Bool) (mx my : Int)
    (piece : List Cell) : List Cell :=
  let targets := piece.map (targetCell sr mx my)
  let xo := computeXOver m.width (targets.map (fun c => c.pos.x))
  let yo : Int := 0
  targets.map (fun c => { c with pos := { x := c.pos.x - xo, y := c.pos.y - yo } })

/-- `check_tetromino_positions` (lines 306-323): a placement is accepted
unless some block has `y < 0` or coincides with a heap block.  No x bound
and no upper y bound is checked. -/
def check_tetromino_positions (piece : List Cell)
    (heap : List MatrixPosition) : Bool :=
  piece.all fun c =>
    !(decide (c.pos.y < 0)) &&
      heap.all fun h => !(c.pos.x == h.x && c.pos.y == h.y)

/-- Translate every block of the piece by `d` (as the kick loop and the
hard-drop loop do). -/
def shiftPiece (piece : List Cell) (d : Int × Int) : List Cell :=
  piece.map fun c => { c with pos := { x := c.pos.x + d.1, y := c.pos.y + d.2 } }

/-- The `try_moves` table (lines 230-237). -/
def try_moves : List (Int × Int) :=
  [(1, 0), (2, 0), (-1, 0), (-2, 0), (-1, -2), (1, -2)]

/-- The kick loop (lines 239-249): each offset is added to the blocks'
current positions — which already include the previously failed offsets —
and the first placement that validates stops the loop.  Returns the final
value of `should_revert` together with the blocks. -/
def tryKicks (heap : List MatrixPosition) :
    List Cell → List (Int × Int) → Bool × List Cell
  | p, [] => (true, p)
  | p, d :: rest =>
    let p2 := shiftPiece p d
    if check_tetromino_positions p2 heap then (false, p2)
    else tryKicks heap p2 rest

/-- `spawn_current_tetromino` (lines 325-354): four blocks at the Shape
Table's local indices, grid x = local x + 3, grid y = height − bbox size +
local y. -/
def spawn_current_tetromino (m : Matrix) (ty : TetrominoType) : List Cell :=
  (BLOCK_INDICES ty).map fun i =>
    { pos := { x := i.1 + 3, y := m.height - SIZES ty + i.2 }
      index := { x := i.1, y := i.2 }
      ty := ty }

/-- The hard-drop `while` loop (lines 136-140), with explicit fuel: while
the placement validates, move every block one row down.  The source loop
terminates because y strictly decreases and the check rejects `y < 0`;
`dropFuel` below always provides enough fuel for a nonempty piece. -/
def hardDropLoop (heap : List MatrixPosition) :
    Nat → List Cell → List Cell
  | 0, p => p
  | fuel + 1, p =>
    if check_tetromino_positions p heap then
      hardDropLoop heap fuel (shiftPiece p (0, -1))
    else p

/-- Fuel bound for `hardDropLoop`: two more than the largest y of the
piece (clamped to `Nat`). -/
def dropFuel (piece : List Cell) : Nat :=
  (piece.foldl (fun (a : Int) (c : Cell) => max a c.pos.y) 0).toNat + 2

/-- One run of the `move_current_tetromino` system (lines 119-270).
`ty` is the kind the `rand::random()` call would return if a spawn happens
this tick.  Paths:
* hard drop (lines 135-153): drop while valid, back up one row, turn the
  blocks into heap blocks there, spawn a new piece, and return before any
  other input or the timer is looked at;
* otherwise build the clamped candidate and validate it; on success commit
  it; on failure with a rotation request run the kick loop and, if every
  kick failed, revert the positions (the rotated indices are kept — the
  source reverts only `position`); on failure without a rotation request
  hand the blocks to the heap at their reverted (tick-start) positions and
  spawn a new piece. -/
def move_current_tetromino (m : Matrix) (inp : Input) (ty : TetrominoType)
    (s : GState) : GState :=
  if inp.hard then
    let dropped := shiftPiece (hardDropLoop s.heap (dropFuel s.piece) s.piece) (0, 1)
    { piece := spawn_current_tetromino m ty
      heap := s.heap ++ dropped.map (fun c => c.pos) }
  else
    let sr := shouldRotateOf inp
    let cand := clampedCandidate m sr (moveXOf inp) (moveYOf inp) s.piece
    if check_tetromino_positions cand s.heap then
      { s with piece := cand }
    else
      match sr with
      | some _ =>
        let res := tryKicks s.heap cand try_moves
        if res.1 then
          { s with piece := List.zipWith (fun (o c : Cell) => { c with pos := o.pos }) s.piece res.2 }
        else
          { s with piece := res.2 }
      | none =>
        { piece := spawn_current_tetromino m ty
          heap := s.heap ++ s.piece.map (fun c => c.pos) }

/-- States reachable by the game: `setup` spawns a piece of some kind on an
empty heap, and each frame runs `move_current_tetromino` with some inputs
and some next random kind. -/
inductive Reachable : GState → Prop where
  | start (ty : TetrominoType) :
      Reachable { piece := spawn_current_tetromino m10 ty, heap := [] }
  | step (s : GState) (inp : Input) (ty : TetrominoType) :
      Reachable s → Reachable (move_current_tetromino m10 inp ty s)

/-- Run a list of (input, next random kind) ticks from a state. -/
def runScript (s : GState) (l : List (Input × TetrominoType)) : GState :=
  l.foldl (fun st p => move_current_tetromino m10 p.1 p.2 st) s

/-- No key pressed, timer not finished. -/
def inNone : Input :=
  { hard := false, left := false, right := false, down := false
    timer := false, keyX := false, keyZ := false }

def inRight : Input := { inNone with right := true }

def inLeft : Input := { inNone with left := true }

def inDown : Input := { inNone with down := true }

def inCW : Input := { inNone with keyX := true }

def inHard : Input := { inNone with hard := true }

def inCWDown : Input := { inNone with keyX := true, down := true }

/-- The offsets the kick loop actually tests, relative to the clamped
candidate: since the loop never resets the positions between attempts, they
are the cumulative sums of `try_moves`. -/
def cumulative_kicks : List (Int × Int) :=
  [(1, 0), (3, 0), (2, 0), (0, 0), (-1, -2), (0, -4)]

/-- Modelled from the spec's words, for comparison with the implementation:
"attempt a fixed ordered list of additional offsets — (1,0), (2,0), (-1,0),
(-2,0), (-1,-2), (1,-2) — applying each on top of the already-clamped
candidate and re-validating; the first offset that validates is committed".
Returns the placement committed under that reading, if any offset
validates. -/
def specKickLadder (heap : List MatrixPosition) (cand : List Cell) :
    Option (List Cell) :=
  (try_moves.find? fun d =>
    check_tetromino_positions (shiftPiece cand d) heap).map (shiftPiece cand)

/-- Invariant used for claim C2: every block of the active piece and every
heap block sits at `y ≥ 0`. -/
def YOk (s : GState) : Prop :=
  (∀ c ∈ s.piece, 0 ≤ c.pos.y) ∧ ∀ h ∈ s.heap, 0 ≤ h.y

/-! ### Concrete example states -/

/-- A T piece (cells in query order) with its bounding square anchored at
`(4, 5)`. -/
def c1Piece : List Cell :=
  [ { pos := { x := 4, y := 6 }, index := { x := 0, y := 1 }, ty := .T }
  , { pos := { x := 5, y := 6 }, index := { x := 1, y := 1 }, ty := .T }
  , { pos := { x := 6, y := 6 }, index := { x := 2, y := 1 }, ty := .T }
  , { pos := { x := 5, y := 7 }, index := { x := 1, y := 2 }, ty := .T } ]

/-- The T piece above with two heap blocks arranged so that the clockwise
rotation candidate and its first kick collide but later kicks do not. -/
def c1State : GState :=
  { piece := c1Piece, heap := [{ x := 5, y := 5 }, { x := 6, y := 5 }] }

/-- The clamped candidate of `c1State` under a clockwise rotation with no
translation. -/
def c1Cand : List Cell := clampedCandidate m10 (some true) 0 0 c1Piece

/-- An O piece resting on the floor with a heap block directly to its
left. -/
def c3State : GState :=
  { piece :=
      [ { pos := { x := 4, y := 0 }, index := { x := 1, y := 1 }, ty := .O }
      , { pos := { x := 4, y := 1 }, index := { x := 1, y := 2 }, ty := .O }
      , { pos := { x := 5, y := 0 }, index := { x := 2, y := 1 }, ty := .O }
      , { pos := { x := 5, y := 1 }, index := { x := 2, y := 2 }, ty := .O } ]
    heap := [{ x := 3, y := 0 }] }

/-- A horizontal I piece lying on the floor (local indices in the
orientation produced by one clockwise rotation).  Rotating it again sends
every cell below the floor, and no kick offset can rescue it. -/
def c4State : GState :=
  { piece :=
      [ { pos := { x := 6, y := 0 }, index := { x := 3, y := 2 }, ty := .I }
      , { pos := { x := 5, y := 0 }, index := { x := 2, y := 2 }, ty := .I }
      , { pos := { x := 4, y := 0 }, index := { x := 1, y := 2 }, ty := .I }
      , { pos := { x := 3, y := 0 }, index := { x := 0, y := 2 }, ty := .I } ]
    heap := [] }

/-- A freshly spawned O piece above a single heap block in column 4. -/
def c10State : GState :=
  { piece :=
      [ { pos := { x := 4, y := 19 }, index := { x := 1, y := 1 }, ty := .O }
      , { pos := { x := 4, y := 20 }, index := { x := 1, y := 2 }, ty := .O }
      , { pos := { x := 5, y := 19 }, index := { x := 2, y := 1 }, ty := .O }
      , { pos := { x := 5, y := 20 }, index := { x := 2, y := 2 }, ty := .O } ]
    heap := [{ x := 4, y := 0 }] }

/-- An O piece hugging the left wall, used to exercise the clamp. -/
def c9Piece : List Cell :=
  [ { pos := { x := 0, y := 5 }, index := { x := 1, y := 1 }, ty := .O }
  , { pos := { x := 0, y := 6 }, index := { x := 1, y := 2 }, ty := .O }
  , { pos := { x := 1, y := 5 }, index := { x := 2, y := 1 }, ty := .O }
  , { pos := { x := 1, y := 6 }, index := { x := 2, y := 2 }, ty := .O } ]

/-- The game as `setup` leaves it when the randomizer yields an O piece. -/
def initO : GState := { piece := spawn_current_tetromino m10 .O, heap := [] }

/-- An input script (key edges plus the kind the randomizer returns if that
tick spawns): stack two O pieces in columns 5-6, bring an I piece down the
right wall, rotate it — the kick loop commits a placement with a block at
`x = 10`, outside the grid — and soft-drop once so that the piece locks
into the heap while straddling the right wall. -/
def script : List (Input × TetrominoType) :=
  [(inRight, .O)] ++ List.replicate 20 (inDown, .O)
  ++ [(inRight, .O)] ++ List.replicate 17 (inDown, .O) ++ [(inDown, .I)]
  ++ List.replicate 5 (inRight, .O) ++ List.replicate 18 (inDown, .O)
  ++ [(inCW, .O), (inDown, .O)]

/-- The state the script reaches. -/
def badState : GState := runScript initO script

/-! ## Basic lemmas about the embedded operations -/

theorem shiftPiece_shiftPiece (p : List Cell) (a b : Int × Int) :
    shiftPiece (shiftPiece p a) b = shiftPiece p (a.1 + b.1, a.2 + b.2) := by
  induction p with
  | nil => rfl
  | cons c t ih =>
    simp only [shiftPiece, List.map_cons, List.map_map] at ih ⊢
    refine congrArg₂ _ ?_ ih
    simp [Int.add_assoc]

theorem shiftPiece_zero (p : List Cell) : shiftPiece p (0, 0) = p := by
  induction p with
  | nil => rfl
  | cons c t ih =>
    simp only [shiftPiece, List.map_cons] at ih ⊢
    refine congrArg₂ _ ?_ ih
    simp

theorem shiftPiece_length (p : List Cell) (d : Int × Int) :
    (shiftPiece p d).length = p.length := by
  simp [shiftPiece]

theorem check_eq_true_iff (piece : List Cell) (heap : List MatrixPosition) :
    check_tetromino_positions piece heap = true ↔
      ∀ c ∈ piece, 0 ≤ c.pos.y ∧
        ∀ h ∈ heap, ¬(c.pos.x = h.x ∧ c.pos.y = h.y) := by
  simp only [check_tetromino_positions, List.all_eq_true, Bool.and_eq_true,
    Bool.not_eq_true', decide_eq_false_iff_not, not_lt, Bool.and_eq_false_iff,
    beq_eq_false_iff_ne, ne_eq]
  constructor
  · intro H c hc
    rcases H c hc with ⟨h1, h2⟩
    refine ⟨h1, fun h hh => ?_⟩
    have := h2 h hh
    tauto
  · intro H c hc
    rcases H c hc with ⟨h1, h2⟩
    refine ⟨h1, fun h hh => ?_⟩
    have := h2 h hh
    tauto

theorem check_true_y {piece : List Cell} {heap : List MatrixPosition}
    (h : check_tetromino_positions piece heap = true) :
    ∀ c ∈ piece, 0 ≤ c.pos.y :=
  fun c hc => ((check_eq_true_iff piece heap).mp h c hc).1

theorem check_false_of_neg {piece : List Cell} {heap : List MatrixPosition}
    {c : Cell} (hc : c ∈ piece) (hy : c.pos.y < 0) :
    check_tetromino_positions piece heap = false := by
  rw [Bool.eq_false_iff]
  intro htrue
  exact absurd ((check_eq_true_iff piece heap).mp htrue c hc).1 (by omega)

/-! ## Claims C5, C6, C7 -/

/-- C5: the collision predicate `check_tetromino_positions` returns `false`
iff some block of the candidate has `y < 0` or coincides exactly (equal x
and equal y) with an existing heap block; the condition mentions no x bound
and no upper y bound, so neither is checked. -/
theorem C5_check_false_iff (piece : List Cell) (heap : List MatrixPosition) :
    check_tetromino_positions piece heap = false ↔
      ∃ c ∈ piece, c.pos.y < 0 ∨ ∃ h ∈ heap, c.pos.x = h.x ∧ c.pos.y = h.y := by
  rw [Bool.eq_false_iff, Ne, check_eq_true_iff]
  constructor
  · intro h
    by_contra hc
    push_neg at hc
    apply h
    intro c hcp
    rcases hc c hcp with ⟨hy, hheap⟩
    exact ⟨by omega, fun hh hhm hand => hheap hh hhm hand.1 hand.2⟩
  · rintro ⟨c, hcp, hbad⟩ hall
    rcases hall c hcp with ⟨hy, hheap⟩
    rcases hbad with hneg | ⟨h, hhm, hx, hy2⟩
    · omega
    · exact hheap h hhm ⟨hx, hy2⟩

/-- C6: for every piece kind, one application of the rotation transform with
`size = bbox_size − 1 = SIZES ty − 1` maps a local index `(x, y)` to
`(y, size − x)` when clockwise and to `(size − y, x)` when
counter-clockwise. -/
theorem C6_rotation_formula (ty : TetrominoType) (i : MatrixPosition)
    (clockwise : Bool) :
    rotate_tetromino_block i (SIZES ty) clockwise =
      if clockwise then { x := i.y, y := (SIZES ty - 1) - i.x }
      else { x := (SIZES ty - 1) - i.y, y := i.x } := by
  cases clockwise <;> rfl

/-- C7: the rotation operation of the movement loop — rotate the local index
and shift the grid position by that cell's own local-index delta, with no
clamp, kick or translation interleaved — has order four: applying it four
consecutive times in the same direction restores both the local index and
the grid position of every cell. -/
theorem C7_rotation_order_four (cw : Bool) (c : Cell) :
    targetCell (some cw) 0 0 (targetCell (some cw) 0 0
      (targetCell (some cw) 0 0 (targetCell (some cw) 0 0 c))) = c := by
  rcases c with ⟨⟨px, py⟩, ⟨ix, iy⟩, ty⟩
  cases cw <;> simp [targetCell, rotate_tetromino_block] <;> omega

/-! ## Claim C1: the wall-kick ladder -/

/-- The kick loop searches the cumulative sums of `try_moves`: it returns
the first cumulative offset of the clamped candidate that validates, or
keeps `should_revert` with the positions shifted by the final cumulative
offset `(0, -4)` when none does. -/
theorem tryKicks_eq_find (heap : List MatrixPosition) (p : List Cell) :
    tryKicks heap p try_moves =
      match cumulative_kicks.find?
          (fun d => check_tetromino_positions (shiftPiece p d) heap) with
      | some d => (false, shiftPiece p d)
      | none => (true, shiftPiece p (0, -4)) := by
  simp only [try_moves, cumulative_kicks, tryKicks, List.find?_cons,
    shiftPiece_shiftPiece]
  norm_num
  split_ifs <;> simp_all

/-- C1 (amended): when a rotation was requested and the clamped candidate is
invalid, the six kick offsets are tried in the fixed order of `try_moves`,
but each is applied on top of the previous failed attempt, so the
placements tested are the clamped candidate shifted by the cumulative
offsets `(1,0), (3,0), (2,0), (0,0), (-1,-2), (0,-4)` in that order; the
first cumulative offset whose placement the collision predicate accepts is
committed as the new piece state, and the heap is unchanged. -/
theorem C1_kick_ladder_cumulative (m : Matrix) (inp : Input)
    (ty : TetrominoType) (s : GState) (b : Bool) (d : Int × Int)
    (hh : inp.hard = false)
    (hsr : shouldRotateOf inp = some b)
    (hinv : check_tetromino_positions
      (clampedCandidate m (some b) (moveXOf inp) (moveYOf inp) s.piece)
      s.heap = false)
    (hfind : cumulative_kicks.find?
      (fun d => check_tetromino_positions
        (shiftPiece (clampedCandidate m (some b) (moveXOf inp) (moveYOf inp)
          s.piece) d) s.heap) = some d) :
    (move_current_tetromino m inp ty s).piece =
      shiftPiece (clampedCandidate m (some b) (moveXOf inp) (moveYOf inp)
        s.piece) d
    ∧ (move_current_tetromino m inp ty s).heap = s.heap := by
  simp only [move_current_tetromino, hh, hsr, hinv, Bool.false_eq_true,
    if_false, tryKicks_eq_find, hfind]
  exact ⟨trivial, trivial⟩

/-- C1 is false as stated: in this concrete tick a rotation is requested and
the clamped candidate `c1Cand` is invalid; applying the offsets on top of
the clamped candidate (the claim's reading, `specKickLadder`) would commit
`c1Cand` shifted by `(2, 0)`, but the code commits `c1Cand` shifted by
`(3, 0)` — the second offset landed on top of the first failed attempt. -/
theorem C1_counterexample :
    shouldRotateOf inCW = some true
    ∧ clampedCandidate m10 (some true) (moveXOf inCW) (moveYOf inCW)
        c1State.piece = c1Cand
    ∧ check_tetromino_positions c1Cand c1State.heap = false
    ∧ specKickLadder c1State.heap c1Cand = some (shiftPiece c1Cand (2, 0))
    ∧ (move_current_tetromino m10 inCW TetrominoType.O c1State).piece =
        shiftPiece c1Cand (3, 0)
    ∧ shiftPiece c1Cand (3, 0) ≠ shiftPiece c1Cand (2, 0) := by
  decide

/-- Witness for `C1_kick_ladder_cumulative` at the state `c1State`: the
first validating cumulative offset is `(3, 0)` and the code indeed commits
the clamped candidate shifted by `(3, 0)`. -/
theorem C1_kick_ladder_cumulative_witness :
    (move_current_tetromino m10 inCW TetrominoType.O c1State).piece =
      shiftPiece (clampedCandidate m10 (some true) (moveXOf inCW)
        (moveYOf inCW) c1State.piece) (3, 0)
    ∧ (move_current_tetromino m10 inCW TetrominoType.O c1State).heap =
        c1State.heap :=
  C1_kick_ladder_cumulative m10 inCW TetrominoType.O c1State true (3, 0)
    (by decide) (by decide) (by decide) (by decide)

/-! ## Claims C3 and C8: lock-in -/

/-- On a tick with no hard drop and no rotation request whose clamped
candidate is rejected, the blocks join the heap at their tick-start
positions (the lock branch reverts the positions before the entities become
heap blocks) and a fresh piece is spawned. -/
theorem lock_of_invalid (m : Matrix) (inp : Input) (ty : TetrominoType)
    (s : GState) (hh : inp.hard = false) (hsr : shouldRotateOf inp = none)
    (hinv : check_tetromino_positions
      (clampedCandidate m none (moveXOf inp) (moveYOf inp) s.piece)
      s.heap = false) :
    move_current_tetromino m inp ty s =
      { piece := spawn_current_tetromino m ty
        heap := s.heap ++ s.piece.map (fun c => c.pos) } := by
  simp only [move_current_tetromino, hh, hsr, hinv, Bool.false_eq_true,
    if_false]

/-- On a tick with no hard drop whose clamped candidate is accepted, the
candidate is committed and the heap is untouched. -/
theorem commit_of_valid (m : Matrix) (inp : Input) (ty : TetrominoType)
    (s : GState) (hh : inp.hard = false)
    (hvalid : check_tetromino_positions
      (clampedCandidate m (shouldRotateOf inp) (moveXOf inp) (moveYOf inp)
        s.piece) s.heap = true) :
    move_current_tetromino m inp ty s =
      { s with
        piece :=
          clampedCandidate m (shouldRotateOf inp) (moveXOf inp) (moveYOf inp)
            s.piece } := by
  simp only [move_current_tetromino, hh, hvalid, Bool.false_eq_true,
    if_false, if_true]

/-- C3 (amended): with no hard drop and no rotation requested, lock-in is
decided solely by the clamped candidate being rejected — the heap changes
exactly when the candidate is invalid, whether the attempted move was
sideways or downward.  In particular a failed purely sideways move does
lock the piece. -/
theorem C3_lock_iff_invalid (m : Matrix) (inp : Input) (ty : TetrominoType)
    (s : GState) (hh : inp.hard = false) (hsr : shouldRotateOf inp = none)
    (hne : s.piece ≠ []) :
    (move_current_tetromino m inp ty s).heap ≠ s.heap ↔
      check_tetromino_positions
        (clampedCandidate m none (moveXOf inp) (moveYOf inp) s.piece)
        s.heap = false := by
  cases hv : check_tetromino_positions
      (clampedCandidate m none (moveXOf inp) (moveYOf inp) s.piece) s.heap with
  | true =>
    rw [commit_of_valid m inp ty s hh (by rw [hsr]; exact hv)]
    simp
  | false =>
    rw [lock_of_invalid m inp ty s hh hsr hv]
    simp only [ne_eq, iff_true]
    intro heq
    have hlen := congrArg List.length heq.symm
    simp only [List.length_append, List.length_map] at hlen
    have : s.piece.length = 0 := by omega
    exact hne (List.length_eq_zero.mp this)

/-- C3 is false as stated: in this concrete tick no rotation is requested,
the attempted move is purely sideways (`move_y = 0`), the candidate
overlaps a heap block, and the piece IS locked into the heap. -/
theorem C3_counterexample :
    moveYOf inLeft = 0
    ∧ shouldRotateOf inLeft = none
    ∧ check_tetromino_positions
        (clampedCandidate m10 none (moveXOf inLeft) (moveYOf inLeft)
          c3State.piece) c3State.heap = false
    ∧ (move_current_tetromino m10 inLeft TetrominoType.O c3State).heap =
        c3State.heap ++ c3State.piece.map (fun c => c.pos)
    ∧ (move_current_tetromino m10 inLeft TetrominoType.O c3State).heap ≠
        c3State.heap := by
  decide

/-- Witness for `C3_lock_iff_invalid` at the state `c3State` under a left
press. -/
theorem C3_lock_iff_invalid_witness :
    (move_current_tetromino m10 inLeft TetrominoType.O c3State).heap ≠
        c3State.heap ↔
      check_tetromino_positions
        (clampedCandidate m10 none (moveXOf inLeft) (moveYOf inLeft)
          c3State.piece) c3State.heap = false :=
  C3_lock_iff_invalid m10 inLeft TetrominoType.O c3State (by decide)
    (by decide) (by decide)

/-- C8: when lock-in occurs (no hard drop, no rotation requested, clamped
candidate rejected), the blocks are added to the heap at their
pre-this-tick positions, and a fresh piece of exactly four blocks is
spawned whose every block has grid position `x = local index x + 3` and
`y = height − bbox size + local index y`. -/
theorem C8_lock_and_spawn (m : Matrix) (inp : Input) (ty : TetrominoType)
    (s : GState) (hh : inp.hard = false) (hsr : shouldRotateOf inp = none)
    (hinv : check_tetromino_positions
      (clampedCandidate m none (moveXOf inp) (moveYOf inp) s.piece)
      s.heap = false) :
    (move_current_tetromino m inp ty s).heap =
        s.heap ++ s.piece.map (fun c => c.pos)
    ∧ (move_current_tetromino m inp ty s).piece = spawn_current_tetromino m ty
    ∧ (spawn_current_tetromino m ty).length = 4
    ∧ ∀ c ∈ spawn_current_tetromino m ty,
        c.pos.x = c.index.x + 3
        ∧ c.pos.y = m.height - SIZES ty + c.index.y := by
  rw [lock_of_invalid m inp ty s hh hsr hinv]
  refine ⟨rfl, rfl, by cases ty <;> rfl, ?_⟩
  intro c hc
  simp only [spawn_current_tetromino, List.mem_map] at hc
  rcases hc with ⟨i, hi, rfl⟩
  exact ⟨rfl, rfl⟩

/-- Witness for `C8_lock_and_spawn`: the O piece of `c3State` locks under a
left press and an I piece is spawned at the spawn offset. -/
theorem C8_lock_and_spawn_witness :
    (move_current_tetromino m10 inLeft TetrominoType.I c3State).heap =
        c3State.heap ++ c3State.piece.map (fun c => c.pos)
    ∧ (move_current_tetromino m10 inLeft TetrominoType.I c3State).piece =
        spawn_current_tetromino m10 TetrominoType.I
    ∧ (spawn_current_tetromino m10 TetrominoType.I).length = 4
    ∧ ∀ c ∈ spawn_current_tetromino m10 TetrominoType.I,
        c.pos.x = c.index.x + 3
        ∧ c.pos.y = m10.height - SIZES TetrominoType.I + c.index.y :=
  C8_lock_and_spawn m10 inLeft TetrominoType.I c3State (by decide)
    (by decide) (by decide)

/-! ## Claim C4: a fully failed rotation reverts -/

theorem tryKicks_length (heap : List MatrixPosition) :
    ∀ (ds : List (Int × Int)) (p : List Cell),
      (tryKicks heap p ds).2.length = p.length := by
  intro ds
  induction ds with
  | nil => intro p; rfl
  | cons d rest ih =>
    intro p
    simp only [tryKicks]
    cases hc : check_tetromino_positions (shiftPiece p d) heap
    · simp only [hc, Bool.false_eq_true, if_false]
      rw [ih (shiftPiece p d), shiftPiece_length]
    · simp only [hc, if_true, shiftPiece_length]

theorem clampedCandidate_length (m : Matrix) (sr : Option Bool) (mx my : Int)
    (piece : List Cell) :
    (clampedCandidate m sr mx my piece).length = piece.length := by
  simp [clampedCandidate]

theorem zipWith_restore (a : List Cell) :
    ∀ b : List Cell, b.length = a.length →
      (List.zipWith (fun (o c : Cell) => { c with pos := o.pos }) a b).map
          (fun c => c.pos)
        = a.map (fun c => c.pos) := by
  induction a with
  | nil => intro b _; rfl
  | cons o a' ih =>
    intro b hb
    cases b with
    | nil => simp at hb
    | cons c b' =>
      simp only [List.zipWith_cons_cons, List.map_cons]
      refine congrArg₂ _ rfl ?_
      exact ih b' (by simpa using hb)

/-- C4: when a rotation was requested, the clamped candidate is rejected,
and every kick attempt fails, all blocks are restored exactly to their
tick-start grid positions and no lock-in occurs (the heap is unchanged),
even when a downward move was also attempted in the same tick. -/
theorem C4_failed_rotation_reverts (m : Matrix) (inp : Input)
    (ty : TetrominoType) (s : GState) (b : Bool)
    (hh : inp.hard = false) (hsr : shouldRotateOf inp = some b)
    (hinv : check_tetromino_positions
      (clampedCandidate m (some b) (moveXOf inp) (moveYOf inp) s.piece)
      s.heap = false)
    (hkick : (tryKicks s.heap
      (clampedCandidate m (some b) (moveXOf inp) (moveYOf inp) s.piece)
      try_moves).1 = true) :
    (move_current_tetromino m inp ty s).piece.map (fun c => c.pos) =
        s.piece.map (fun c => c.pos)
    ∧ (move_current_tetromino m inp ty s).heap = s.heap := by
  have hmove : move_current_tetromino m inp ty s =
      { s with
        piece := List.zipWith (fun (o c : Cell) => { c with pos := o.pos })
          s.piece
          (tryKicks s.heap
            (clampedCandidate m (some b) (moveXOf inp) (moveYOf inp) s.piece)
            try_moves).2 } := by
    simp only [move_current_tetromino, hh, hsr, hinv, Bool.false_eq_true,
      if_false, hkick, if_true]
  rw [hmove]
  refine ⟨?_, rfl⟩
  apply zipWith_restore
  rw [tryKicks_length, clampedCandidate_length]

/-- Witness for `C4_failed_rotation_reverts`: the boxed-in horizontal I
piece of `c4State` requests a clockwise rotation together with a downward
move; the candidate and all six kicks are rejected and the piece's grid
positions are exactly restored with the heap unchanged. -/
theorem C4_failed_rotation_reverts_witness :
    (move_current_tetromino m10 inCWDown TetrominoType.O c4State).piece.map
        (fun c => c.pos) = c4State.piece.map (fun c => c.pos)
    ∧ (move_current_tetromino m10 inCWDown TetrominoType.O c4State).heap =
        c4State.heap :=
  C4_failed_rotation_reverts m10 inCWDown TetrominoType.O c4State true
    (by decide) (by decide) (by decide) (by decide)

/-! ## Claim C9: the horizontal clamp -/

theorem xOverFold_nonpos (w : Int) :
    ∀ (ts : List Int) (acc : Int),
      (∀ t ∈ ts, -1 ≤ t ∧ t < w - 1) → -1 ≤ acc → acc ≤ 0 →
        -1 ≤ ts.foldl (xOverStep w) acc
        ∧ ts.foldl (xOverStep w) acc ≤ acc
        ∧ ∀ t ∈ ts, t < 0 → ts.foldl (xOverStep w) acc ≤ t := by
  intro ts
  induction ts with
  | nil =>
    intro acc _ ha1 ha2
    exact ⟨ha1, le_refl _, by simp⟩
  | cons t ts ih =>
    intro acc h ha1 ha2
    have ht := h t (List.mem_cons_self t ts)
    have hts : ∀ u ∈ ts, -1 ≤ u ∧ u < w - 1 :=
      fun u hu => h u (List.mem_cons_of_mem t hu)
    simp only [List.foldl_cons]
    have hstep : -1 ≤ xOverStep w acc t ∧ xOverStep w acc t ≤ acc := by
      unfold xOverStep
      split_ifs <;> constructor <;> omega
    obtain ⟨ihA, ihB, ihC⟩ :=
      ih (xOverStep w acc t) hts hstep.1 (le_trans hstep.2 ha2)
    refine ⟨ihA, le_trans ihB hstep.2, ?_⟩
    intro u hu hu0
    rcases List.mem_cons.mp hu with rfl | hu'
    · refine le_trans ihB ?_
      unfold xOverStep
      split_ifs
      all_goals omega
    · exact ihC u hu' hu0

theorem xOverFold_nonneg (w : Int) :
    ∀ (ts : List Int) (acc : Int),
      (∀ t ∈ ts, 1 ≤ t ∧ t ≤ w) → 0 ≤ acc → acc ≤ 1 →
        ts.foldl (xOverStep w) acc ≤ 1
        ∧ acc ≤ ts.foldl (xOverStep w) acc
        ∧ ∀ t ∈ ts, w ≤ t → t - w + 1 ≤ ts.foldl (xOverStep w) acc := by
  intro ts
  induction ts with
  | nil =>
    intro acc _ ha1 ha2
    exact ⟨ha2, le_refl _, by simp⟩
  | cons t ts ih =>
    intro acc h ha1 ha2
    have ht := h t (List.mem_cons_self t ts)
    have hts : ∀ u ∈ ts, 1 ≤ u ∧ u ≤ w :=
      fun u hu => h u (List.mem_cons_of_mem t hu)
    simp only [List.foldl_cons]
    have hstep : acc ≤ xOverStep w acc t ∧ xOverStep w acc t ≤ 1 := by
      unfold xOverStep
      split_ifs <;> constructor <;> omega
    obtain ⟨ihA, ihB, ihC⟩ :=
      ih (xOverStep w acc t) hts (le_trans ha1 hstep.1) hstep.2
    refine ⟨ihA, le_trans hstep.1 ihB, ?_⟩
    intro u hu huw
    rcases List.mem_cons.mp hu with rfl | hu'
    · refine le_trans ?_ ihB
      unfold xOverStep
      split_ifs <;> omega
    · exact ihC u hu' huw

theorem xOverFold_id (w : Int) :
    ∀ (ts : List Int), (∀ t ∈ ts, 0 ≤ t ∧ t < w) →
      ∀ acc : Int, ts.foldl (xOverStep w) acc = acc := by
  intro ts
  induction ts with
  | nil => intro _ acc; rfl
  | cons t ts ih =>
    intro h acc
    have ht := h t (List.mem_cons_self t ts)
    have hts : ∀ u ∈ ts, 0 ≤ u ∧ u < w :=
      fun u hu => h u (List.mem_cons_of_mem t hu)
    simp only [List.foldl_cons]
    rw [show xOverStep w acc t = acc from by unfold xOverStep; split_ifs <;> omega]
    exact ih hts acc

/-- The clamp keeps every x in bounds when all blocks share the same move
`mx ∈ [-1, 1]` and start inside `[0, w)`. -/
theorem clamp_bounds (w mx : Int) (hmx : -1 ≤ mx ∧ mx ≤ 1) (xs : List Int)
    (hxs : ∀ x ∈ xs, 0 ≤ x ∧ x < w) :
    ∀ x ∈ xs, 0 ≤ x + mx - computeXOver w (xs.map (· + mx))
      ∧ x + mx - computeXOver w (xs.map (· + mx)) < w := by
  intro x hx
  have hxb := hxs x hx
  have hmem : x + mx ∈ xs.map (· + mx) := List.mem_map_of_mem _ hx
  have hcase : mx = -1 ∨ mx = 0 ∨ mx = 1 := by omega
  unfold computeXOver
  rcases hcase with rfl | rfl | rfl
  · have hts : ∀ t ∈ xs.map (· + (-1)), -1 ≤ t ∧ t < w - 1 := by
      intro t ht
      rcases List.mem_map.mp ht with ⟨u, hu, rfl⟩
      have := hxs u hu
      omega
    obtain ⟨hA, hB, hC⟩ :=
      xOverFold_nonpos w (xs.map (· + (-1))) 0 hts (by omega) (by omega)
    by_cases hx0 : x + (-1) < 0
    · have := hC _ hmem hx0
      constructor <;> omega
    · constructor <;> omega
  · rw [xOverFold_id w (xs.map (· + 0))
      (by intro t ht; rcases List.mem_map.mp ht with ⟨u, hu, rfl⟩
          have := hxs u hu; omega) 0]
    constructor <;> omega
  · have hts : ∀ t ∈ xs.map (· + 1), 1 ≤ t ∧ t ≤ w := by
      intro t ht
      rcases List.mem_map.mp ht with ⟨u, hu, rfl⟩
      have := hxs u hu
      omega
    obtain ⟨hA, hB, hC⟩ :=
      xOverFold_nonneg w (xs.map (· + 1)) 0 hts (by omega) (by omega)
    by_cases hxw : w ≤ x + 1
    · have := hC _ hmem hxw
      constructor <;> omega
    · constructor <;> omega

/-- With no rotation, the target x of each block is its x plus the shared
move. -/
theorem targets_x_none (mx my : Int) (piece : List Cell) :
    (piece.map (targetCell none mx my)).map (fun c => c.pos.x)
      = (piece.map (fun c => c.pos.x)).map (· + mx) := by
  induction piece with
  | nil => rfl
  | cons c t ih => simp [targetCell, ih]

/-- C9: the horizontal clamp subtracts one single shared overflow amount
from every block's target x (never a per-cell clamp, so relative offsets
survive the clamp), and on a tick with no rotation requested, if every
block starts inside `[0, width)` then after the clamp every block's x is
again inside `[0, width)`. -/
theorem C9_clamp_shared_and_bounds (m : Matrix) (inp : Input)
    (piece : List Cell)
    (hb : ∀ c ∈ piece, 0 ≤ c.pos.x ∧ c.pos.x < m.width) :
    (∃ o : Int, clampedCandidate m none (moveXOf inp) (moveYOf inp) piece =
        (piece.map (targetCell none (moveXOf inp) (moveYOf inp))).map
          (fun c => { c with pos := { x := c.pos.x - o, y := c.pos.y } }))
    ∧ ∀ c ∈ clampedCandidate m none (moveXOf inp) (moveYOf inp) piece,
        0 ≤ c.pos.x ∧ c.pos.x < m.width := by
  constructor
  · refine ⟨computeXOver m.width
      ((piece.map (targetCell none (moveXOf inp) (moveYOf inp))).map
        (fun c => c.pos.x)), ?_⟩
    simp [clampedCandidate]
  · intro c hc
    have hmx : -1 ≤ moveXOf inp ∧ moveXOf inp ≤ 1 := by
      unfold moveXOf
      split_ifs <;> omega
    simp only [clampedCandidate, List.mem_map] at hc
    rcases hc with ⟨c1, ⟨c0, hc0, rfl⟩, rfl⟩
    have hxs : ∀ x ∈ piece.map (fun c => c.pos.x), 0 ≤ x ∧ x < m.width := by
      intro x hx
      rcases List.mem_map.mp hx with ⟨c2, hc2, rfl⟩
      exact hb c2 hc2
    have hx := clamp_bounds m.width (moveXOf inp) hmx
      (piece.map (fun c => c.pos.x)) hxs c0.pos.x
      (List.mem_map_of_mem _ hc0)
    rw [targets_x_none]
    simp only [targetCell]
    exact hx

/-- Witness for `C9_clamp_shared_and_bounds`: the O piece `c9Piece` hugging
the left wall under a left press stays inside the grid. -/
theorem C9_clamp_shared_and_bounds_witness :
    (∃ o : Int, clampedCandidate m10 none (moveXOf inLeft) (moveYOf inLeft)
        c9Piece =
        (c9Piece.map (targetCell none (moveXOf inLeft) (moveYOf inLeft))).map
          (fun c => { c with pos := { x := c.pos.x - o, y := c.pos.y } }))
    ∧ ∀ c ∈ clampedCandidate m10 none (moveXOf inLeft) (moveYOf inLeft)
        c9Piece, 0 ≤ c.pos.x ∧ c.pos.x < m10.width :=
  C9_clamp_shared_and_bounds m10 inLeft c9Piece (by decide)

/-! ## Claim C2: heap bounds over reachable states -/

theorem spawn_y_nonneg (ty : TetrominoType) :
    ∀ c ∈ spawn_current_tetromino m10 ty, 0 ≤ c.pos.y := by
  cases ty <;> decide

theorem mem_shiftPiece {p : List Cell} {d : Int × Int} {x : Cell}
    (hx : x ∈ shiftPiece p d) : ∃ c ∈ p, x.pos.y = c.pos.y + d.2 := by
  simp only [shiftPiece, List.mem_map] at hx
  rcases hx with ⟨c, hc, rfl⟩
  exact ⟨c, hc, rfl⟩

theorem hardDropLoop_y (heap : List MatrixPosition) :
    ∀ (fuel : Nat) (p : List Cell), (∀ c ∈ p, -1 ≤ c.pos.y) →
      ∀ c ∈ hardDropLoop heap fuel p, -1 ≤ c.pos.y := by
  intro fuel
  induction fuel with
  | zero => intro p hp; exact hp
  | succ n ih =>
    intro p hp
    simp only [hardDropLoop]
    cases hc : check_tetromino_positions p heap with
    | false => simpa [hc] using hp
    | true =>
      simp only [hc, if_true]
      apply ih
      intro c hcm
      rcases mem_shiftPiece hcm with ⟨c0, hc0, he⟩
      have := check_true_y hc c0 hc0
      omega

theorem mem_zipWith_restore :
    ∀ (a b : List Cell) (x : Cell),
      x ∈ List.zipWith (fun (o c : Cell) => { c with pos := o.pos }) a b →
        ∃ o ∈ a, x.pos = o.pos := by
  intro a
  induction a with
  | nil => intro b x hx; simp at hx
  | cons o a' ih =>
    intro b x hx
    cases b with
    | nil => simp at hx
    | cons c b' =>
      rcases List.mem_cons.mp hx with rfl | hx'
      · exact ⟨o, List.mem_cons_self o a', rfl⟩
      · rcases ih b' x hx' with ⟨o', ho', he⟩
        exact ⟨o', List.mem_cons_of_mem _ ho', he⟩

theorem tryKicks_valid (heap : List MatrixPosition) :
    ∀ (ds : List (Int × Int)) (p : List Cell),
      (tryKicks heap p ds).1 = false →
        check_tetromino_positions (tryKicks heap p ds).2 heap = true := by
  intro ds
  induction ds with
  | nil => intro p hp; simp [tryKicks] at hp
  | cons d rest ih =>
    intro p hp
    simp only [tryKicks] at hp ⊢
    cases hc : check_tetromino_positions (shiftPiece p d) heap
    · simp only [hc, Bool.false_eq_true, if_false] at hp ⊢
      exact ih (shiftPiece p d) hp
    · simp only [hc, if_true]

/-- The hard-drop branch, fully unfolded. -/
theorem move_eq_hard (m : Matrix) (inp : Input) (ty : TetrominoType)
    (s : GState) (hh : inp.hard = true) :
    move_current_tetromino m inp ty s =
      { piece := spawn_current_tetromino m ty
        heap := s.heap ++
          (shiftPiece (hardDropLoop s.heap (dropFuel s.piece) s.piece)
            (0, 1)).map (fun c => c.pos) } := by
  simp only [move_current_tetromino, hh, if_true]

/-- The kick branch, fully unfolded. -/
theorem move_eq_kick (m : Matrix) (inp : Input) (ty : TetrominoType)
    (s : GState) (b : Bool) (hh : inp.hard = false)
    (hsr : shouldRotateOf inp = some b)
    (hinv : check_tetromino_positions
      (clampedCandidate m (some b) (moveXOf inp) (moveYOf inp) s.piece)
      s.heap = false) :
    move_current_tetromino m inp ty s =
      if (tryKicks s.heap
            (clampedCandidate m (some b) (moveXOf inp) (moveYOf inp) s.piece)
            try_moves).1 then
        { s with
          piece := List.zipWith (fun (o c : Cell) => { c with pos := o.pos })
            s.piece
            (tryKicks s.heap
              (clampedCandidate m (some b) (moveXOf inp) (moveYOf inp)
                s.piece) try_moves).2 }
      else
        { s with
          piece := (tryKicks s.heap
            (clampedCandidate m (some b) (moveXOf inp) (moveYOf inp) s.piece)
            try_moves).2 } := by
  simp only [move_current_tetromino, hh, hsr, hinv, Bool.false_eq_true,
    if_false]

/-- Every tick preserves the y-invariant. -/
theorem YOk_step (inp : Input) (ty : TetrominoType) (s : GState)
    (h : YOk s) : YOk (move_current_tetromino m10 inp ty s) := by
  obtain ⟨hpiece, hheap⟩ := h
  cases hh : inp.hard with
  | true =>
    rw [move_eq_hard m10 inp ty s hh]
    refine ⟨spawn_y_nonneg ty, ?_⟩
    intro hp hmem
    rcases List.mem_append.mp hmem with hold | hnew
    · exact hheap hp hold
    · rcases List.mem_map.mp hnew with ⟨c, hc, rfl⟩
      rcases mem_shiftPiece hc with ⟨c0, hc0, he⟩
      have h0 : ∀ c ∈ s.piece, (-1 : Int) ≤ c.pos.y := by
        intro c1 hc1
        have := hpiece c1 hc1
        omega
      have := hardDropLoop_y s.heap (dropFuel s.piece) s.piece h0 c0 hc0
      omega
  | false =>
    cases hv : check_tetromino_positions
        (clampedCandidate m10 (shouldRotateOf inp) (moveXOf inp) (moveYOf inp)
          s.piece) s.heap with
    | true =>
      rw [commit_of_valid m10 inp ty s hh hv]
      exact ⟨check_true_y hv, hheap⟩
    | false =>
      cases hsr : shouldRotateOf inp with
      | none =>
        rw [lock_of_invalid m10 inp ty s hh hsr (by rw [hsr] at hv; exact hv)]
        refine ⟨spawn_y_nonneg ty, ?_⟩
        intro hp hmem
        rcases List.mem_append.mp hmem with hold | hnew
        · exact hheap hp hold
        · rcases List.mem_map.mp hnew with ⟨c, hc, rfl⟩
          exact hpiece c hc
      | some b =>
        rw [move_eq_kick m10 inp ty s b hh hsr (by rw [hsr] at hv; exact hv)]
        cases hk : (tryKicks s.heap
            (clampedCandidate m10 (some b) (moveXOf inp) (moveYOf inp)
              s.piece) try_moves).1 with
        | true =>
          simp only [hk, if_true]
          refine ⟨?_, hheap⟩
          intro c hc
          rcases mem_zipWith_restore _ _ c hc with ⟨o, ho, he⟩
          rw [he]
          exact hpiece o ho
        | false =>
          simp only [hk, Bool.false_eq_true, if_false]
          exact ⟨check_true_y (tryKicks_valid s.heap try_moves _ hk), hheap⟩

/-- Every reachable state satisfies the y-invariant. -/
theorem YOk_reachable {s : GState} (h : Reachable s) : YOk s := by
  induction h with
  | start ty => exact ⟨spawn_y_nonneg ty, by simp⟩
  | step s inp ty _ ih => exact YOk_step inp ty s ih

/-- Any state produced by a script from a reachable state is reachable. -/
theorem reachable_runScript {s : GState} (h : Reachable s) :
    ∀ l : List (Input × TetrominoType), Reachable (runScript s l) := by
  intro l
  induction l generalizing s with
  | nil => exact h
  | cons p l ih => exact ih (Reachable.step s p.1 p.2 h)

/-- C2 (amended): in every reachable state, every heap block satisfies
`y ≥ 0`.  The x-bounds half of the claim is false — see
`C2_counterexample`. -/
theorem C2_heap_y_nonneg (s : GState) (h : Reachable s) :
    ∀ hp ∈ s.heap, 0 ≤ hp.y :=
  (YOk_reachable h).2

set_option maxRecDepth 8000 in
/-- C2 is false as stated: `badState` is reachable from the initial state
(empty heap, freshly spawned piece) yet one of its heap blocks sits at
`x = 10 = width`, outside `[0, width)` — the kick loop committed a
placement sticking out of the right wall and the piece then locked
there. -/
theorem C2_counterexample :
    Reachable badState
    ∧ ∃ hp ∈ badState.heap, ¬(0 ≤ hp.x ∧ hp.x < m10.width) :=
  ⟨reachable_runScript (Reachable.start TetrominoType.O) script, by decide⟩

set_option maxRecDepth 8000 in
/-- Witness for `C2_heap_y_nonneg` at the reachable state `badState`, whose
heap has twelve blocks: the block at `(5, 0)` is one of them and its y is
nonnegative. -/
theorem C2_heap_y_nonneg_witness :
    ({ x := 5, y := 0 } : MatrixPosition) ∈ badState.heap
    ∧ 0 ≤ ({ x := 5, y := 0 } : MatrixPosition).y :=
  ⟨by decide,
   C2_heap_y_nonneg badState
     (reachable_runScript (Reachable.start TetrominoType.O) script)
     { x := 5, y := 0 } (by decide)⟩

/-! ## Claim C10: the hard drop -/

theorem shiftPiece_zero' (p : List Cell) : shiftPiece p (0 : Int × Int) = p :=
  shiftPiece_zero p

theorem shiftPiece_down_succ (p : List Cell) (n : Nat) :
    shiftPiece (shiftPiece p (0, -1)) (0, -(n : Int))
      = shiftPiece p (0, -((n + 1 : Nat) : Int)) := by
  rw [shiftPiece_shiftPiece]
  congr 1
  simp [Prod.ext_iff]

/-- The hard-drop loop lowers the piece by some number `n` of rows: all the
intermediate placements validated, and if the fuel was not exhausted the
placement `n` rows down is the first rejected one. -/
theorem hardDropLoop_spec (heap : List MatrixPosition) :
    ∀ (fuel : Nat) (p : List Cell),
      ∃ n : Nat, n ≤ fuel
        ∧ hardDropLoop heap fuel p = shiftPiece p (0, -(n : Int))
        ∧ (∀ j : Nat, j < n →
            check_tetromino_positions (shiftPiece p (0, -(j : Int))) heap = true)
        ∧ (n < fuel →
            check_tetromino_positions (shiftPiece p (0, -(n : Int))) heap = false) := by
  intro fuel
  induction fuel with
  | zero =>
    intro p
    refine ⟨0, le_refl 0, by simp [hardDropLoop, shiftPiece_zero, shiftPiece_zero'], ?_, ?_⟩
    · intro j hj
      exact absurd hj (by omega)
    · intro h
      exact absurd h (by omega)
  | succ fuel ih =>
    intro p
    cases hc : check_tetromino_positions p heap with
    | false =>
      refine ⟨0, by omega, ?_, ?_, ?_⟩
      · simp [hardDropLoop, hc, shiftPiece_zero, shiftPiece_zero']
      · intro j hj
        exact absurd hj (by omega)
      · intro _
        simpa [shiftPiece_zero, shiftPiece_zero'] using hc
    | true =>
      obtain ⟨n, hn, heq, hall, hlast⟩ := ih (shiftPiece p (0, -1))
      refine ⟨n + 1, by omega, ?_, ?_, ?_⟩
      · simp only [hardDropLoop, hc, if_true]
        rw [heq, shiftPiece_down_succ]
      · intro j hj
        cases j with
        | zero => simpa [shiftPiece_zero, shiftPiece_zero'] using hc
        | succ j' =>
          have hj' := hall j' (by omega)
          rw [shiftPiece_down_succ] at hj'
          exact hj'
      · intro hlt
        have := hlast (by omega)
        rw [shiftPiece_down_succ] at this
        exact this

theorem foldl_max_le (l : List Cell) :
    ∀ a : Int,
      a ≤ l.foldl (fun (a : Int) (c : Cell) => max a c.pos.y) a
      ∧ ∀ c ∈ l, c.pos.y ≤ l.foldl (fun (a : Int) (c : Cell) => max a c.pos.y) a := by
  induction l with
  | nil => intro a; exact ⟨le_refl _, by simp⟩
  | cons c t ih =>
    intro a
    simp only [List.foldl_cons]
    obtain ⟨h1, h2⟩ := ih (max a c.pos.y)
    refine ⟨le_trans (le_max_left _ _) h1, ?_⟩
    intro c' hc'
    rcases List.mem_cons.mp hc' with rfl | hm
    · exact le_trans (le_max_right _ _) h1
    · exact h2 c' hm

/-- Shifting a piece down past some block's y makes the placement
invalid. -/
theorem check_shift_false (heap : List MatrixPosition) {p : List Cell}
    {c0 : Cell} (hc0 : c0 ∈ p) {j : Int} (hj : c0.pos.y < j) :
    check_tetromino_positions (shiftPiece p (0, -j)) heap = false := by
  have hmem : ({ c0 with pos := { x := c0.pos.x + 0, y := c0.pos.y + -j } } : Cell)
      ∈ shiftPiece p (0, -j) := by
    simp only [shiftPiece, List.mem_map]
    exact ⟨c0, hc0, rfl⟩
  exact check_false_of_neg hmem (by simp only []; omega)

/-- C10: there is a sixth input beyond the five movement/rotation intents —
the hard drop (`I`/`Up`).  Within the single tick where it is pressed, the
piece is translated straight down by the largest number of rows `k` such
that the placement `k` rows down is still accepted (one further row is
rejected), its blocks become heap blocks there, a fresh piece is spawned,
and every other key, the rotation intents, and the soft-drop timer are
ignored: any input with the hard-drop edge set produces the same state. -/
theorem C10_hard_drop (m : Matrix) (inp : Input) (ty : TetrominoType)
    (s : GState) (hh : inp.hard = true) (hne : s.piece ≠ [])
    (hv : check_tetromino_positions s.piece s.heap = true) :
    (∃ k : Nat,
      (move_current_tetromino m inp ty s).heap =
        s.heap ++ (shiftPiece s.piece (0, -(k : Int))).map (fun c => c.pos)
      ∧ check_tetromino_positions (shiftPiece s.piece (0, -(k : Int)))
          s.heap = true
      ∧ check_tetromino_positions (shiftPiece s.piece (0, -((k + 1 : Nat) : Int)))
          s.heap = false)
    ∧ (move_current_tetromino m inp ty s).piece = spawn_current_tetromino m ty
    ∧ ∀ inp2 : Input, inp2.hard = true →
        move_current_tetromino m inp2 ty s = move_current_tetromino m inp ty s := by
  obtain ⟨n, hn, heq, hall, hlast⟩ :=
    hardDropLoop_spec s.heap (dropFuel s.piece) s.piece
  obtain ⟨c0, hc0⟩ := List.exists_mem_of_ne_nil s.piece hne
  have hy0 : 0 ≤ c0.pos.y := check_true_y hv c0 hc0
  have hfuelbad : check_tetromino_positions
      (shiftPiece s.piece (0, -((c0.pos.y.toNat + 1 : Nat) : Int)))
      s.heap = false :=
    check_shift_false s.heap hc0 (by omega)
  have hjfuel : c0.pos.y.toNat + 1 < dropFuel s.piece := by
    have hmax := foldl_max_le s.piece 0
    have hble := hmax.2 c0 hc0
    have h0le := hmax.1
    unfold dropFuel
    omega
  have hnlt : n < dropFuel s.piece := by
    by_contra hge
    push_neg at hge
    have htrue := hall (c0.pos.y.toNat + 1) (by omega)
    rw [hfuelbad] at htrue
    simp at htrue
  have hcheckn : check_tetromino_positions
      (shiftPiece s.piece (0, -(n : Int))) s.heap = false := hlast hnlt
  have hn1 : 1 ≤ n := by
    by_contra h0
    push_neg at h0
    have hn0 : n = 0 := by omega
    rw [hn0] at hcheckn
    simp only [Nat.cast_zero, neg_zero, shiftPiece_zero] at hcheckn
    rw [hv] at hcheckn
    simp at hcheckn
  refine ⟨⟨n - 1, ?_, ?_, ?_⟩, ?_, ?_⟩
  · rw [move_eq_hard m inp ty s hh]
    simp only [heq]
    rw [shiftPiece_shiftPiece]
    have harg : ((0 : Int) + 0, -(n : Int) + 1) = ((0 : Int), -((n - 1 : Nat) : Int)) := by
      simp [Prod.ext_iff]
      omega
    rw [harg]
  · exact hall (n - 1) (by omega)
  · have h1 : (n - 1 + 1 : Nat) = n := by omega
    rw [h1]
    exact hcheckn
  · rw [move_eq_hard m inp ty s hh]
  · intro inp2 h2
    rw [move_eq_hard m inp2 ty s h2, move_eq_hard m inp ty s hh]

/-- Witness for `C10_hard_drop`: the freshly spawned O piece of `c10State`
hard-drops onto the single heap block in column 4. -/
theorem C10_hard_drop_witness :
    (∃ k : Nat,
      (move_current_tetromino m10 inHard TetrominoType.I c10State).heap =
        c10State.heap ++
          (shiftPiece c10State.piece (0, -(k : Int))).map (fun c => c.pos)
      ∧ check_tetromino_positions (shiftPiece c10State.piece (0, -(k : Int)))
          c10State.heap = true
      ∧ check_tetromino_positions
          (shiftPiece c10State.piece (0, -((k + 1 : Nat) : Int)))
          c10State.heap = false)
    ∧ (move_current_tetromino m10 inHard TetrominoType.I c10State).piece =
        spawn_current_tetromino m10 TetrominoType.I
    ∧ ∀ inp2 : Input, inp2.hard = true →
        move_current_tetromino m10 inp2 TetrominoType.I c10State =
          move_current_tetromino m10 inHard TetrominoType.I c10State :=
  C10_hard_drop m10 inHard TetrominoType.I c10State (by decide) (by decide)
    (by decide)

end BevyTetris
